import Mathlib

set_option autoImplicit false

/-!
Shallow embedding of the GridWeaver hydration pipeline and row-request
translator:
- `fromSerializedToColumnDef` and the hydrated value formatter closure
  (src/libs/react/src/lib/AgTable.tsx, lines 127-172),
- `parseSort` (same file, lines 67-122),
- the `getRows` filter-merge (same file, lines 225-236),
- the `date` expression filter and `formatDate`
  (src/libs/core/src/lib/expressions.ts, lines 32-66).

JavaScript objects are modelled as association lists of string keys in
insertion order; JavaScript exceptions are modelled with `Except`.
-/

namespace GridWeaver

/-- A small model of JavaScript runtime values as they appear in the code
under study.  Function-valued slots (such as the injected action callback)
are represented by whatever `JSValue` the caller passes for them: the
hydrator treats the callback as an off-the-shelf value and never inspects
it. -/
inductive JSValue where
  | undef
  | null
  | bool (b : Bool)
  | num (n : Int)
  | str (s : String)
  deriving DecidableEq, Repr

/-- JavaScript truthiness for the modelled values. -/
def jsTruthy : JSValue → Bool
  | .undef => false
  | .null => false
  | .bool b => b
  | .num n => n != 0
  | .str s => s != ""

/-- Property lookup on a JavaScript object modelled as an association list
(first entry with the key wins, as keys are unique in real JS objects). -/
def olookup {α : Type} (k : String) : List (String × α) → Option α
  | [] => none
  | (k', v) :: rest => if k' = k then some v else olookup k rest

/-- The JavaScript object spread `\x7b...a, ...b\x7d`: keys of `a` in their
order with values overridden by `b` where present, followed by the entries
of `b` whose keys are new. -/
def objSpread {α : Type} (a b : List (String × α)) : List (String × α) :=
  a.map (fun kv => (kv.1, (olookup kv.1 b).getD kv.2)) ++
    b.filter (fun kv => (olookup kv.1 a).isNone)

/-- `SerializedColumnDef` (src/libs/core/src/lib/core.ts): the fields of a
serialized column that the hydrator reads or writes.  `cellRendererParams`
is a JS object; `valueFormatter` is the serialized array of expression
sources. -/
structure SCol where
  field : String
  headerName : String
  cellRenderer : Option String
  cellRendererParams : Option (List (String × JSValue))
  valueFormatter : Option (List String)
  deriving DecidableEq, Repr

/-- The `ValueFormatterParams` slots that the hydrated formatter reads. -/
structure VFParams where
  api : JSValue
  colDef : JSValue
  node : JSValue
  value : JSValue

/-- The scope object built inside the hydrated `valueFormatter`
(AgTable.tsx lines 152-157): `\x7b api, colDef, node, value \x7d`. -/
def buildScope (p : VFParams) : List (String × JSValue) :=
  [("api", p.api), ("colDef", p.colDef), ("node", p.node), ("value", p.value)]

/-- A compiled expression: a function of the scope object that either
yields a value or throws (models `expressions.compile(exp)` applied to a
scope; a compile-time throw is folded into the thrown case since both
abort the formatter call the same way). -/
def Exec : Type := List (String × JSValue) → Except String JSValue

/-- The `for (const exp of vf) \x7b ... result = exec(scope) \x7d` loop of the
hydrated formatter: each expression is evaluated against the same scope,
`result` is overwritten each iteration, and a thrown error aborts the
loop (there is no try/catch in the source).  On the empty list the loop
never runs and `result` stays `undefined`; the hydrator only builds this
closure for non-empty lists. -/
def runExprs (compile : String → Exec) (scope : List (String × JSValue)) :
    List String → Except String JSValue
  | [] => Except.ok JSValue.undef
  | e :: rest =>
    match compile e scope with
    | Except.error msg => Except.error msg
    | Except.ok v =>
      match rest with
      | [] => Except.ok v
      | _ :: _ => runExprs compile scope rest

/-- The in-place update performed at AgTable.tsx lines 133-138: when the
column has a `cellRenderer`, an action callback was supplied, and the
column already has `cellRendererParams`, the params object is replaced by
`\x7b...c.cellRendererParams, onAction: cellRendererAction\x7d`.  In the source
this is an assignment to the INPUT object `c`. -/
def injectAction (action : Option JSValue) (c : SCol) : SCol :=
  match c.cellRenderer, action, c.cellRendererParams with
  | some _, some act, some ps =>
    { c with cellRendererParams := some (objSpread ps [("onAction", act)]) }
  | _, _, _ => c

/-- A hydrated column: the structural data carried through, plus the
hydrated `valueFormatter` closure when one was built. -/
structure LiveCol where
  col : SCol
  valueFormatter : Option (VFParams → Except String JSValue)

/-- One step of `fromSerializedToColumnDef` (AgTable.tsx lines 131-171):
inject the action callback (mutating the input), then either pass the
column through (absent or empty `valueFormatter`) or attach the formatter
closure that evaluates every expression against the scope and returns the
last result. -/
def hydrateColumn (compile : String → Exec) (action : Option JSValue) (c : SCol) : LiveCol :=
  let c' := injectAction action c
  match c'.valueFormatter with
  | some (e :: rest) =>
    { col := c', valueFormatter := some (fun p => runExprs compile (buildScope p) (e :: rest)) }
  | _ => { col := c', valueFormatter := none }

/-- `fromSerializedToColumnDef`: the returned array of hydrated columns. -/
def fromSerializedToColumnDef (compile : String → Exec) (action : Option JSValue)
    (serialized : List SCol) : List LiveCol :=
  serialized.map (hydrateColumn compile action)

/-- The state of the INPUT array's objects after `fromSerializedToColumnDef`
returns: the callback injection at lines 133-138 wrote through to the
input objects, nothing else did. -/
def fromSerializedMutatedInput (action : Option JSValue) (serialized : List SCol) : List SCol :=
  serialized.map (injectAction action)

/-! ### Row-request translator (`parseSort`, AgTable.tsx lines 67-122) -/

/-- One entry of the native sort model: `\x7b colId, sort \x7d`. -/
structure SortEntry where
  colId : String
  sort : String
  deriving DecidableEq, Repr

/-- One entry of the native filter model, as the code reads it:
`val as \x7b type: string; filter: string \x7d`. -/
structure FilterEntry where
  type : String
  filter : String
  deriving DecidableEq, Repr

/-- A translated filter value: either the literal filter value (the `$eq`
case) or a one-key operator object `\x7b [operator]: pattern \x7d`. -/
inductive FilterOut where
  | lit (v : String)
  | op (name pattern : String)
  deriving DecidableEq, Repr

/-- A translated order-by entry: either the flat `[colId, sort]` pair or
the nested `[\x7b model, as \x7d, columnName, sort]` triple.  `asName` models the
`as` property (a reserved word in Lean). -/
inductive OrderByEntry where
  | flat (colId sort : String)
  | nested (model asName columnName sort : String)
  deriving DecidableEq, Repr

/-- The body of the `Object.entries(filterModel).map` callback
(AgTable.tsx lines 75-96): `operator` starts at `$eq` and is reassigned
for `contains`/`notContains` types on non-`id` keys; the emitted value is
the literal filter for `$eq` and the wrapped pattern otherwise. -/
def mapFilterEntry (key : String) (filterVal : FilterEntry) : String × FilterOut :=
  let operator := "$eq"
  let operator := if filterVal.type = "contains" then
    (if key ≠ "id" then "$iLike" else operator) else operator
  let operator := if filterVal.type = "notContains" then
    (if key ≠ "id" then "$notILike" else operator) else operator
  (key,
    if operator = "$eq" then FilterOut.lit filterVal.filter
    else FilterOut.op operator ("%" ++ filterVal.filter ++ "%"))

/-- JavaScript `String.prototype.split` with a single-character separator,
on the character list of the string: `"".split(sep)` is `[""]`, and a
separator occurrence always contributes a boundary. -/
def jsSplitChar (sep : Char) : List Char → List (List Char)
  | [] => [[]]
  | c :: cs =>
    if c = sep then [] :: jsSplitChar sep cs
    else
      match jsSplitChar sep cs with
      | [] => [[c]]
      | p :: ps => (c :: p) :: ps

/-- `s.charAt(0).toUpperCase() + s.slice(1)` on the character list of a
string (ASCII uppercasing, which covers the relation names at issue). -/
def capitalizeFirstList : List Char → List Char
  | [] => []
  | c :: cs => c.toUpper :: cs

/-- The order-by construction of `parseSort` (AgTable.tsx lines 99-114):
a dotted column id is split on `'.'`, destructured into its first two
parts, the first part is capitalized into `model`, and a single nested
entry is emitted; otherwise a single flat entry is emitted. -/
def parseSortOrderBy (sort : SortEntry) : List OrderByEntry :=
  if sort.colId.data.contains '.' then
    let parts := jsSplitChar '.' sort.colId.data
    let modelName := parts.getD 0 []
    let columnName := parts.getD 1 []
    [OrderByEntry.nested ⟨capitalizeFirstList modelName⟩ ⟨modelName⟩ ⟨columnName⟩ sort.sort]
  else
    [OrderByEntry.flat sort.colId sort.sort]

/-- The fields of `params.request` that `parseSort` reads.  `Option` models
absence (`startRow = 0, endRow = 0` destructuring defaults,
`sortModel?.`, `filterModel || \x7b\x7d`). -/
structure NativeRequest where
  startRow : Option Int
  endRow : Option Int
  sortModel : Option (List SortEntry)
  filterModel : Option (List (String × FilterEntry))

/-- The normalized query descriptor returned by `parseSort`. -/
structure NormalizedQuery where
  filter : List (String × FilterOut)
  limit : Int
  offset : Int
  orderBy : List OrderByEntry
  deriving DecidableEq, Repr

/-- `parseSort` (AgTable.tsx lines 67-122). -/
def parseSort (req : NativeRequest) : NormalizedQuery :=
  let startRow := req.startRow.getD 0
  let endRow := req.endRow.getD 0
  let filterModel := req.filterModel.getD []
  let limit := endRow - startRow
  let sort := ((req.sortModel.getD []).head?).getD ⟨"createdAt", "desc"⟩
  { filter := filterModel.map (fun kv => mapFilterEntry kv.1 kv.2)
    limit := limit
    offset := startRow
    orderBy := parseSortOrderBy sort }

/-! ### The `getRows` filter merge (AgTable.tsx lines 225-236) -/

/-- A value of the object passed to `JSON.stringify` for the `filter`
query parameter: it mixes translated filter entries with the definition's
static `http.params` values. -/
inductive MergedVal where
  | fromFilter (f : FilterOut)
  | fromParam (v : JSValue)
  deriving DecidableEq, Repr

/-- The object `\x7b...filter, ...(serialized.http.params || \x7b\x7d)\x7d` built in
`getRows` before JSON-encoding it into the `filter` query parameter. -/
def getRowsFilter (translated : List (String × FilterOut))
    (httpParams : Option (List (String × JSValue))) : List (String × MergedVal) :=
  objSpread (translated.map fun kv => (kv.1, MergedVal.fromFilter kv.2))
    ((httpParams.getD []).map fun kv => (kv.1, MergedVal.fromParam kv.2))

/-! ### The `date` expression filter (expressions.ts lines 32-66) -/

/-- Decimal digits of a natural number, most significant first, prepended
to `acc` (models JavaScript `Number.prototype.toString()` for the
non-negative integers produced by the `Date` getters).  The `fuel`
argument only bounds the recursion; `n + 1` units always suffice since a
number has at most `n + 1` decimal digits. -/
def natToDigitsAux (fuel n : Nat) (acc : List Char) : List Char :=
  match fuel with
  | 0 => acc
  | fuel' + 1 =>
    if n < 10 then Nat.digitChar n :: acc
    else natToDigitsAux fuel' (n / 10) (Nat.digitChar (n % 10) :: acc)

/-- `n.toString()` for a non-negative JavaScript number. -/
def jsNatToString (n : Nat) : String :=
  ⟨natToDigitsAux (n + 1) n []⟩

/-- `n.toString().padStart(2, '0')`: the `pad` helper of `formatDate`. -/
def pad (n : Nat) : String :=
  let s := jsNatToString n
  ⟨List.replicate (2 - s.data.length) '0' ++ s.data⟩

/-- JavaScript `String.prototype.replace` with a string pattern: replaces
only the FIRST occurrence of `pat` (here on character lists). -/
def listReplaceFirst (pat rep : List Char) : List Char → List Char
  | [] => if pat.isPrefixOf ([] : List Char) then rep else []
  | c :: cs =>
    if pat.isPrefixOf (c :: cs) then rep ++ (c :: cs).drop pat.length
    else c :: listReplaceFirst pat rep cs

/-- `s.replace(pat, rep)` on strings (first occurrence only). -/
def jsReplaceFirst (s pat rep : String) : String :=
  ⟨listReplaceFirst pat.data rep.data s.data⟩

/-- The components a JavaScript `Date` exposes through the getters used by
`formatDate`: `getFullYear`, `getMonth` (0-based), `getDate`, `getHours`,
`getMinutes`, `getSeconds`. -/
structure JSDate where
  year : Nat
  month0 : Nat
  day : Nat
  hours : Nat
  minutes : Nat
  seconds : Nat
  deriving DecidableEq, Repr

/-- `formatDate` (expressions.ts lines 51-66): token substitution by a
chain of first-occurrence `replace` calls in the order `YYYY`, `MM`,
`DD`, `hh`, `HH`, `mm`, `ss`, `A`. -/
def formatDate (date : JSDate) (format : String) : String :=
  let hours := date.hours
  let hours12 := if hours % 12 = 0 then 12 else hours % 12
  let ampm := if hours ≥ 12 then "PM" else "AM"
  jsReplaceFirst (jsReplaceFirst (jsReplaceFirst (jsReplaceFirst (jsReplaceFirst
    (jsReplaceFirst (jsReplaceFirst (jsReplaceFirst format
      "YYYY" (jsNatToString date.year))
      "MM" (pad (date.month0 + 1)))
      "DD" (pad date.day))
      "hh" (pad hours12))
      "HH" (pad hours))
      "mm" (pad date.minutes))
      "ss" (pad date.seconds))
      "A" ampm

/-- The `date` filter (expressions.ts lines 32-43).  `parse` models
`new Date(input)` together with the `isNaN(date.getTime())` validity
check: `none` for an unparseable string.  The source condition
`input && typeof input === 'string' && input !== ''` collapses, for a
string, to the string being non-empty; the final `return input || ''`
maps every falsy input (including the empty string) to `''`. -/
def dateFilter (parse : String → Option JSDate) (input : JSValue)
    (opts : Option String) : JSValue :=
  match input with
  | JSValue.str s =>
    if s ≠ "" then
      match parse s with
      | some d => JSValue.str (formatDate d (opts.getD "MM/DD/YYYY hh:mm:ss A"))
      | none => JSValue.str s
    else JSValue.str ""
  | v => if jsTruthy v then v else JSValue.str ""

/-! ### Concrete sample data used to instantiate the theorems -/

/-- A sample compiled-expression semantics: `"$value"` reads the raw cell
value from the scope, `"boom"` throws at evaluation time, and any other
source evaluates to itself as a string.  It stands in for the external
`angular-expressions` engine, whose compiled functions can throw at
runtime (e.g. calling a non-function inside an expression). -/
def compileDemo : String → Exec := fun src scope =>
  if src = "$value" then Except.ok ((olookup "value" scope).getD JSValue.undef)
  else if src = "boom" then Except.error "boom"
  else Except.ok (JSValue.str src)

/-- Sample `ValueFormatterParams` with raw cell value `"raw"`. -/
def vfp0 : VFParams :=
  { api := JSValue.str "gridApi", colDef := JSValue.str "colDef"
    node := JSValue.str "node", value := JSValue.str "raw" }

/-- A column whose formatter list has two entries. -/
def c1Col : SCol :=
  { field := "name", headerName := "Name", cellRenderer := none
    cellRendererParams := none, valueFormatter := some ["a", "$value"] }

/-- A column whose single formatter expression throws at evaluation. -/
def c2Col : SCol :=
  { field := "x", headerName := "X", cellRenderer := none
    cellRendererParams := none, valueFormatter := some ["boom"] }

/-- A column with a renderer and existing renderer params. -/
def c3Col : SCol :=
  { field := "name", headerName := "Name", cellRenderer := some "StatusBadge"
    cellRendererParams := some [("p", JSValue.str "v")], valueFormatter := none }

/-- A stand-in for the caller-supplied action callback value. -/
def c3Action : JSValue := JSValue.str "actionCallback"

/-- A column with its `cellRendererParams` dropped, for comparing all the
other fields at once. -/
def stripParams (c : SCol) : SCol := { c with cellRendererParams := none }

/-- A sample date parser: recognizes one fixed timestamp string, as
`new Date` would, and rejects everything else. -/
def parseDemo : String → Option JSDate := fun s =>
  if s = "2024-03-15T19:30:45" then
    some { year := 2024, month0 := 2, day := 15, hours := 19, minutes := 30, seconds := 45 }
  else none

/-! ### Helper lemmas -/

theorem olookup_append {α : Type} (k : String) (a b : List (String × α)) :
    olookup k (a ++ b) = ((olookup k a).orElse fun _ => olookup k b) := by
  induction a with
  | nil => rfl
  | cons kv rest ih =>
    obtain ⟨k', v⟩ := kv
    by_cases h : k' = k <;> simp [olookup, h, ih]

theorem olookup_map_keyed {α β : Type} (g : String → α → β) (k : String)
    (a : List (String × α)) :
    olookup k (a.map fun kv => (kv.1, g kv.1 kv.2)) = (olookup k a).map (g k) := by
  induction a with
  | nil => rfl
  | cons kv rest ih =>
    obtain ⟨k', v⟩ := kv
    by_cases h : k' = k
    · subst h; simp [olookup]
    · simp [olookup, h, ih]

theorem olookup_filter_key {α : Type} (p : String → Bool) (k : String)
    (b : List (String × α)) (hp : p k = true) :
    olookup k (b.filter fun kv => p kv.1) = olookup k b := by
  induction b with
  | nil => rfl
  | cons kv rest ih =>
    obtain ⟨k', v⟩ := kv
    by_cases h : k' = k
    · subst h; simp [List.filter, hp, olookup, ih]
    · by_cases hq : p k' <;> simp [List.filter, hq, olookup, h, ih]

/-- Spread semantics: where the second object has the key, its value wins. -/
theorem objSpread_lookup_right {α : Type} (a b : List (String × α)) (k : String)
    (hb : (olookup k b).isSome = true) :
    olookup k (objSpread a b) = olookup k b := by
  unfold objSpread
  rw [olookup_append, olookup_map_keyed (fun k' v => (olookup k' b).getD v)]
  cases ha : olookup k a with
  | none =>
    simp only [Option.map_none', Option.orElse]
    exact olookup_filter_key (fun k' => (olookup k' a).isNone) k b (by simp [ha])
  | some v =>
    obtain ⟨w, hw⟩ := Option.isSome_iff_exists.mp hb
    simp [hw]

/-- The callback injection touches no field other than `cellRendererParams`. -/
theorem injectAction_field (action : Option JSValue) (c : SCol) :
    (injectAction action c).field = c.field ∧
    (injectAction action c).headerName = c.headerName ∧
    (injectAction action c).cellRenderer = c.cellRenderer ∧
    (injectAction action c).valueFormatter = c.valueFormatter := by
  unfold injectAction
  rcases hr : c.cellRenderer with _ | r <;> rcases ha : action with _ | act <;>
    rcases hp : c.cellRendererParams with _ | ps <;> simp [hr, ha, hp]

theorem injectAction_valueFormatter (action : Option JSValue) (c : SCol) :
    (injectAction action c).valueFormatter = c.valueFormatter :=
  (injectAction_field action c).2.2.2

theorem injectAction_none (c : SCol) : injectAction none c = c := by
  unfold injectAction
  rcases hr : c.cellRenderer with _ | r <;>
    rcases hp : c.cellRendererParams with _ | ps <;> simp

/-- When every expression evaluates successfully, the formatter loop
returns exactly the value of the last expression. -/
theorem runExprs_all_ok (compile : String → Exec) (scope : List (String × JSValue)) :
    ∀ (vf : List String) (hne : vf ≠ []),
      (∀ e ∈ vf, ∃ v, compile e scope = Except.ok v) →
      runExprs compile scope vf = compile (vf.getLast hne) scope := by
  intro vf
  induction vf with
  | nil => intro hne; exact absurd rfl hne
  | cons e rest ih =>
    intro hne hok
    obtain ⟨v, hv⟩ := hok e (List.mem_cons_self e rest)
    cases rest with
    | nil => simp [runExprs, hv]
    | cons r rs =>
      rw [List.getLast_cons (by simp)]
      simpa [runExprs, hv] using
        ih (by simp) (fun x hx => hok x (List.mem_cons_of_mem e hx))

/-- A thrown evaluation error aborts the formatter loop and propagates:
the first failing expression's error is the loop's result. -/
theorem runExprs_error (compile : String → Exec) (scope : List (String × JSValue))
    (msg : String) :
    ∀ (pre : List String) (e : String) (post : List String),
      (∀ x ∈ pre, ∃ v, compile x scope = Except.ok v) →
      compile e scope = Except.error msg →
      runExprs compile scope (pre ++ e :: post) = Except.error msg := by
  intro pre
  induction pre with
  | nil =>
    intro e post _ he
    cases post <;> simp [runExprs, he]
  | cons x pre' ih =>
    intro e post hok he
    obtain ⟨v, hv⟩ := hok x (List.mem_cons_self x pre')
    have hne : pre' ++ e :: post ≠ [] := by simp
    have : runExprs compile scope (x :: (pre' ++ e :: post)) =
        runExprs compile scope (pre' ++ e :: post) := by
      cases h : pre' ++ e :: post with
      | nil => exact absurd h hne
      | cons y ys => simp [runExprs, hv, h]
    rw [List.cons_append, this]
    exact ih e post (fun z hz => hok z (List.mem_cons_of_mem x hz)) he

theorem jsSplitChar_not_mem (sep : Char) (a : List Char) (ha : sep ∉ a) :
    jsSplitChar sep a = [a] := by
  induction a with
  | nil => rfl
  | cons c cs ih =>
    have hc : c ≠ sep := fun h => ha (h ▸ List.mem_cons_self c cs)
    have hcs : sep ∉ cs := fun h => ha (List.mem_cons_of_mem c h)
    simp [jsSplitChar, hc, ih hcs]

theorem jsSplitChar_boundary (sep : Char) (a b : List Char) (ha : sep ∉ a) :
    jsSplitChar sep (a ++ sep :: b) = a :: jsSplitChar sep b := by
  induction a with
  | nil => simp [jsSplitChar]
  | cons c cs ih =>
    have hc : c ≠ sep := fun h => ha (h ▸ List.mem_cons_self c cs)
    have hcs : sep ∉ cs := fun h => ha (List.mem_cons_of_mem c h)
    simp [jsSplitChar, hc, ih hcs]

theorem listReplaceFirst_not_mem (p : Char) (ps rep s : List Char) (hs : p ∉ s) :
    listReplaceFirst (p :: ps) rep s = s := by
  induction s with
  | nil => simp [listReplaceFirst, List.isPrefixOf]
  | cons c cs ih =>
    have hc : c ≠ p := fun h => hs (h ▸ List.mem_cons_self c cs)
    have hcs : p ∉ cs := fun h => hs (List.mem_cons_of_mem c h)
    have hpre : (p :: ps).isPrefixOf (c :: cs) = false := by
      simp [List.isPrefixOf, Ne.symm hc]
    simp [listReplaceFirst, hpre, ih hcs]

theorem listReplaceFirst_boundary (p : Char) (ps rep a b : List Char) (ha : p ∉ a) :
    listReplaceFirst (p :: ps) rep (a ++ (p :: ps) ++ b) = a ++ rep ++ b := by
  induction a with
  | nil =>
    have hpre : (p :: ps).isPrefixOf ((p :: ps) ++ b) = true := by
      rw [ List.isPrefixOf_iff_prefix]
      exact List.prefix_append (p :: ps) b
    simp [listReplaceFirst, hpre, List.drop_left]
  | cons c cs ih =>
    have hc : c ≠ p := fun h => ha (h ▸ List.mem_cons_self c cs)
    have hcs : p ∉ cs := fun h => ha (List.mem_cons_of_mem c h)
    simpa [listReplaceFirst, Ne.symm hc, List.append_assoc] using ih hcs

theorem digitChar_isDigit (n : Nat) (h : n < 10) : (Nat.digitChar n).isDigit = true := by
  interval_cases n <;> decide

theorem natToDigitsAux_digits (fuel : Nat) : ∀ (n : Nat) (acc : List Char),
    (∀ c ∈ acc, c.isDigit = true) →
    ∀ c ∈ natToDigitsAux fuel n acc, c.isDigit = true := by
  induction fuel with
  | zero => intro n acc hacc c hc; exact hacc c hc
  | succ fuel' ih =>
    intro n acc hacc c hc
    by_cases h : n < 10
    · rw [natToDigitsAux, if_pos h] at hc
      rcases List.mem_cons.mp hc with h1 | h1
      · subst h1; exact digitChar_isDigit n h
      · exact hacc c h1
    · rw [natToDigitsAux, if_neg h] at hc
      refine ih (n / 10) (Nat.digitChar (n % 10) :: acc) ?_ c hc
      intro d hd
      rcases List.mem_cons.mp hd with h1 | h1
      · subst h1; exact digitChar_isDigit (n % 10) (Nat.mod_lt n (by omega))
      · exact hacc d h1

theorem jsNatToString_digits (n : Nat) : ∀ c ∈ (jsNatToString n).data, c.isDigit = true :=
  natToDigitsAux_digits (n + 1) n [] (by simp)

theorem pad_digits (n : Nat) : ∀ c ∈ (pad n).data, c.isDigit = true := by
  intro c hc
  unfold pad at hc
  simp only at hc
  rcases List.mem_append.mp hc with h | h
  · have := List.eq_of_mem_replicate h
    subst this; decide
  · exact jsNatToString_digits n c h

theorem nomem_append {x : Char} {A B : List Char} (hA : x ∉ A) (hB : x ∉ B) :
    x ∉ A ++ B := fun h => (List.mem_append.mp h).elim hA hB

theorem nomem_digits {x : Char} {L : List Char} (hL : ∀ c ∈ L, c.isDigit = true)
    (hx : x.isDigit = false) : x ∉ L :=
  fun h => absurd (hL x h) (by simp [hx])

/-- The substitution chain of `formatDate` on the default pattern, at the
level of character lists: each token is hit exactly where intended because
every substituted fragment consists of decimal digits. -/
theorem formatDefaultChain (y pm pd ph phh pmin psec ap : List Char)
    (hy : ∀ c ∈ y, c.isDigit = true) (hpm : ∀ c ∈ pm, c.isDigit = true)
    (hpd : ∀ c ∈ pd, c.isDigit = true) (hph : ∀ c ∈ ph, c.isDigit = true)
    (hpmin : ∀ c ∈ pmin, c.isDigit = true) (hpsec : ∀ c ∈ psec, c.isDigit = true) :
    listReplaceFirst ['A'] ap (listReplaceFirst ['s','s'] psec
      (listReplaceFirst ['m','m'] pmin (listReplaceFirst ['H','H'] phh
      (listReplaceFirst ['h','h'] ph (listReplaceFirst ['D','D'] pd
      (listReplaceFirst ['M','M'] pm (listReplaceFirst ['Y','Y','Y','Y'] y
        ['M','M','/','D','D','/','Y','Y','Y','Y',' ','h','h',':','m','m',':','s','s',' ','A']))))))) =
    pm ++ ('/' :: (pd ++ ('/' :: (y ++ (' ' :: (ph ++ (':' :: (pmin ++
      (':' :: (psec ++ (' ' :: ap))))))))))) := by
  have s1 : listReplaceFirst ['Y','Y','Y','Y'] y
      ['M','M','/','D','D','/','Y','Y','Y','Y',' ','h','h',':','m','m',':','s','s',' ','A'] =
      'M' :: 'M' :: '/' :: 'D' :: 'D' :: '/' ::
        (y ++ (' ' :: 'h' :: 'h' :: ':' :: 'm' :: 'm' :: ':' :: 's' :: 's' :: ' ' :: ['A'])) := by
    simpa using listReplaceFirst_boundary 'Y' ['Y','Y','Y'] y ['M','M','/','D','D','/']
      [' ','h','h',':','m','m',':','s','s',' ','A'] (by decide)
  have s2 : listReplaceFirst ['M','M'] pm
      ('M' :: 'M' :: '/' :: 'D' :: 'D' :: '/' ::
        (y ++ (' ' :: 'h' :: 'h' :: ':' :: 'm' :: 'm' :: ':' :: 's' :: 's' :: ' ' :: ['A']))) =
      pm ++ ('/' :: 'D' :: 'D' :: '/' ::
        (y ++ (' ' :: 'h' :: 'h' :: ':' :: 'm' :: 'm' :: ':' :: 's' :: 's' :: ' ' :: ['A']))) := by
    simpa using listReplaceFirst_boundary 'M' ['M'] pm []
      ('/' :: 'D' :: 'D' :: '/' ::
        (y ++ (' ' :: 'h' :: 'h' :: ':' :: 'm' :: 'm' :: ':' :: 's' :: 's' :: ' ' :: ['A'])))
      (by decide)
  have s3 : listReplaceFirst ['D','D'] pd
      (pm ++ ('/' :: 'D' :: 'D' :: '/' ::
        (y ++ (' ' :: 'h' :: 'h' :: ':' :: 'm' :: 'm' :: ':' :: 's' :: 's' :: ' ' :: ['A'])))) =
      pm ++ ('/' :: (pd ++ ('/' ::
        (y ++ (' ' :: 'h' :: 'h' :: ':' :: 'm' :: 'm' :: ':' :: 's' :: 's' :: ' ' :: ['A']))))) := by
    simpa [List.append_assoc] using listReplaceFirst_boundary 'D' ['D'] pd (pm ++ ['/'])
      ('/' :: (y ++ (' ' :: 'h' :: 'h' :: ':' :: 'm' :: 'm' :: ':' :: 's' :: 's' :: ' ' :: ['A'])))
      (nomem_append (nomem_digits hpm (by decide)) (by decide))
  have s4 : listReplaceFirst ['h','h'] ph
      (pm ++ ('/' :: (pd ++ ('/' ::
        (y ++ (' ' :: 'h' :: 'h' :: ':' :: 'm' :: 'm' :: ':' :: 's' :: 's' :: ' ' :: ['A'])))))) =
      pm ++ ('/' :: (pd ++ ('/' :: (y ++ (' ' ::
        (ph ++ (':' :: 'm' :: 'm' :: ':' :: 's' :: 's' :: ' ' :: ['A']))))))) := by
    simpa [List.append_assoc] using listReplaceFirst_boundary 'h' ['h'] ph
      (pm ++ ('/' :: (pd ++ ('/' :: (y ++ [' '])))))
      (':' :: 'm' :: 'm' :: ':' :: 's' :: 's' :: ' ' :: ['A'])
      (nomem_append (nomem_digits hpm (by decide))
        (List.not_mem_cons_of_ne_of_not_mem (by decide)
          (nomem_append (nomem_digits hpd (by decide))
            (List.not_mem_cons_of_ne_of_not_mem (by decide)
              (nomem_append (nomem_digits hy (by decide)) (by decide))))))
  have s5 : listReplaceFirst ['H','H'] phh
      (pm ++ ('/' :: (pd ++ ('/' :: (y ++ (' ' ::
        (ph ++ (':' :: 'm' :: 'm' :: ':' :: 's' :: 's' :: ' ' :: ['A'])))))))) =
      pm ++ ('/' :: (pd ++ ('/' :: (y ++ (' ' ::
        (ph ++ (':' :: 'm' :: 'm' :: ':' :: 's' :: 's' :: ' ' :: ['A']))))))) :=
    listReplaceFirst_not_mem 'H' ['H'] phh _
      (nomem_append (nomem_digits hpm (by decide))
        (List.not_mem_cons_of_ne_of_not_mem (by decide)
          (nomem_append (nomem_digits hpd (by decide))
            (List.not_mem_cons_of_ne_of_not_mem (by decide)
              (nomem_append (nomem_digits hy (by decide))
                (List.not_mem_cons_of_ne_of_not_mem (by decide)
                  (nomem_append (nomem_digits hph (by decide)) (by decide))))))))
  have s6 : listReplaceFirst ['m','m'] pmin
      (pm ++ ('/' :: (pd ++ ('/' :: (y ++ (' ' ::
        (ph ++ (':' :: 'm' :: 'm' :: ':' :: 's' :: 's' :: ' ' :: ['A'])))))))) =
      pm ++ ('/' :: (pd ++ ('/' :: (y ++ (' ' :: (ph ++ (':' ::
        (pmin ++ (':' :: 's' :: 's' :: ' ' :: ['A']))))))))) := by
    simpa [List.append_assoc] using listReplaceFirst_boundary 'm' ['m'] pmin
      (pm ++ ('/' :: (pd ++ ('/' :: (y ++ (' ' :: (ph ++ [':'])))))))
      (':' :: 's' :: 's' :: ' ' :: ['A'])
      (nomem_append (nomem_digits hpm (by decide))
        (List.not_mem_cons_of_ne_of_not_mem (by decide)
          (nomem_append (nomem_digits hpd (by decide))
            (List.not_mem_cons_of_ne_of_not_mem (by decide)
              (nomem_append (nomem_digits hy (by decide))
                (List.not_mem_cons_of_ne_of_not_mem (by decide)
                  (nomem_append (nomem_digits hph (by decide)) (by decide))))))))
  have s7 : listReplaceFirst ['s','s'] psec
      (pm ++ ('/' :: (pd ++ ('/' :: (y ++ (' ' :: (ph ++ (':' ::
        (pmin ++ (':' :: 's' :: 's' :: ' ' :: ['A'])))))))))) =
      pm ++ ('/' :: (pd ++ ('/' :: (y ++ (' ' :: (ph ++ (':' :: (pmin ++
        (':' :: (psec ++ (' ' :: ['A'])))))))))) ) := by
    simpa [List.append_assoc] using listReplaceFirst_boundary 's' ['s'] psec
      (pm ++ ('/' :: (pd ++ ('/' :: (y ++ (' ' :: (ph ++ (':' :: (pmin ++ [':'])))))))))
      (' ' :: ['A'])
      (nomem_append (nomem_digits hpm (by decide))
        (List.not_mem_cons_of_ne_of_not_mem (by decide)
          (nomem_append (nomem_digits hpd (by decide))
            (List.not_mem_cons_of_ne_of_not_mem (by decide)
              (nomem_append (nomem_digits hy (by decide))
                (List.not_mem_cons_of_ne_of_not_mem (by decide)
                  (nomem_append (nomem_digits hph (by decide))
                    (List.not_mem_cons_of_ne_of_not_mem (by decide)
                      (nomem_append (nomem_digits hpmin (by decide)) (by decide))))))))))
  have s8 : listReplaceFirst ['A'] ap
      (pm ++ ('/' :: (pd ++ ('/' :: (y ++ (' ' :: (ph ++ (':' :: (pmin ++
        (':' :: (psec ++ (' ' :: ['A'])))))))))) )) =
      pm ++ ('/' :: (pd ++ ('/' :: (y ++ (' ' :: (ph ++ (':' :: (pmin ++
        (':' :: (psec ++ (' ' :: ap))))))))))) := by
    simpa [List.append_assoc] using listReplaceFirst_boundary 'A' [] ap
      (pm ++ ('/' :: (pd ++ ('/' :: (y ++ (' ' :: (ph ++ (':' :: (pmin ++
        (':' :: (psec ++ [' '])))))))))))
      []
      (nomem_append (nomem_digits hpm (by decide))
        (List.not_mem_cons_of_ne_of_not_mem (by decide)
          (nomem_append (nomem_digits hpd (by decide))
            (List.not_mem_cons_of_ne_of_not_mem (by decide)
              (nomem_append (nomem_digits hy (by decide))
                (List.not_mem_cons_of_ne_of_not_mem (by decide)
                  (nomem_append (nomem_digits hph (by decide))
                    (List.not_mem_cons_of_ne_of_not_mem (by decide)
                      (nomem_append (nomem_digits hpmin (by decide))
                        (List.not_mem_cons_of_ne_of_not_mem (by decide)
                          (nomem_append (nomem_digits hpsec (by decide)) (by decide))))))))))))
  rw [s1, s2, s3, s4, s5, s6, s7, s8]

/-- `formatDate` on the default pattern renders, for every date value,
two-digit month, day, 12-hour hour, minutes and seconds, the plain year,
and the AM/PM marker, in the layout `MM/DD/YYYY hh:mm:ss A`. -/
theorem formatDate_default (d : JSDate) :
    formatDate d "MM/DD/YYYY hh:mm:ss A" =
      pad (d.month0 + 1) ++ "/" ++ pad d.day ++ "/" ++ jsNatToString d.year ++ " " ++
      pad (if d.hours % 12 = 0 then 12 else d.hours % 12) ++ ":" ++ pad d.minutes ++ ":" ++
      pad d.seconds ++ " " ++ (if d.hours ≥ 12 then "PM" else "AM") := by
  apply String.ext
  have base := formatDefaultChain (jsNatToString d.year).data (pad (d.month0 + 1)).data
    (pad d.day).data (pad (if d.hours % 12 = 0 then 12 else d.hours % 12)).data
    (pad d.hours).data (pad d.minutes).data (pad d.seconds).data
    (if d.hours ≥ 12 then "PM" else "AM").data
    (jsNatToString_digits d.year) (pad_digits (d.month0 + 1)) (pad_digits d.day)
    (pad_digits (if d.hours % 12 = 0 then 12 else d.hours % 12)) (pad_digits d.minutes)
    (pad_digits d.seconds)
  have hY : "YYYY".data = ['Y','Y','Y','Y'] := by decide
  have hM : "MM".data = ['M','M'] := by decide
  have hD : "DD".data = ['D','D'] := by decide
  have hh : "hh".data = ['h','h'] := by decide
  have hH : "HH".data = ['H','H'] := by decide
  have hm : "mm".data = ['m','m'] := by decide
  have hs : "ss".data = ['s','s'] := by decide
  have hA : "A".data = ['A'] := by decide
  have hF : "MM/DD/YYYY hh:mm:ss A".data =
      ['M','M','/','D','D','/','Y','Y','Y','Y',' ','h','h',':','m','m',':','s','s',' ','A'] := by
    decide
  simp only [formatDate, jsReplaceFirst, hY, hM, hD, hh, hH, hm, hs, hA, hF,
    String.data_append]
  simpa [List.append_assoc] using base

/-! ### Claim theorems -/

/-- C1: for every column whose formatter list is present and non-empty,
when every expression of the list evaluates successfully against the
scope, the hydrated formatter returns exactly the value of the last
expression evaluated against that scope — earlier results are discarded
and never feed into later expressions.  (The behaviour when an evaluation
throws is settled under C2.) -/
theorem c1_formatter_returns_last (compile : String → Exec) (action : Option JSValue)
    (c : SCol) (vf : List String) (p : VFParams)
    (hvf : c.valueFormatter = some vf) (hne : vf ≠ [])
    (hok : ∀ e ∈ vf, ∃ v, compile e (buildScope p) = Except.ok v) :
    ∃ f, (hydrateColumn compile action c).valueFormatter = some f ∧
      f p = compile (vf.getLast hne) (buildScope p) := by
  have hvf' : (injectAction action c).valueFormatter = some vf := by
    rw [injectAction_valueFormatter, hvf]
  cases vf with
  | nil => exact absurd rfl hne
  | cons e rest =>
    refine ⟨fun q => runExprs compile (buildScope q) (e :: rest), ?_, ?_⟩
    · simp [hydrateColumn, hvf']
    · exact runExprs_all_ok compile (buildScope p) (e :: rest) hne hok

/-- C1 witness: hydrating a column with formatter list `["a", "$value"]`
and evaluating at a scope with raw value `"raw"` returns the last
expression's result, the raw value. -/
theorem c1_witness :
    ∃ f, (hydrateColumn compileDemo none c1Col).valueFormatter = some f ∧
      f vfp0 = Except.ok (JSValue.str "raw") := by
  obtain ⟨f, h1, h2⟩ := c1_formatter_returns_last compileDemo none c1Col ["a", "$value"] vfp0
    rfl (by simp)
    (by
      intro e he
      simp only [List.mem_cons, List.mem_singleton] at he
      rcases he with h | h | h
      · subst h; exact ⟨JSValue.str "a", rfl⟩
      · subst h; exact ⟨JSValue.str "raw", rfl⟩
      · cases h)
  exact ⟨f, h1, by rw [h2]; rfl⟩

/-- C2 counterexample: the claim says a runtime evaluation error is caught
inside the formatter, which then returns the raw unformatted value.  In
the code the `for` loop at AgTable.tsx lines 160-163 has no try/catch: a
column whose single expression throws `"boom"` yields a formatter that
propagates the error instead of returning the raw value `"raw"`. -/
theorem c2_counterexample :
    ((hydrateColumn compileDemo none c2Col).valueFormatter.getD
        (fun _ => Except.ok JSValue.undef)) vfp0 = Except.error "boom" ∧
    ((hydrateColumn compileDemo none c2Col).valueFormatter.getD
        (fun _ => Except.ok JSValue.undef)) vfp0 ≠ Except.ok vfp0.value := by
  refine ⟨rfl, ?_⟩
  intro h
  rw [show ((hydrateColumn compileDemo none c2Col).valueFormatter.getD
      (fun _ => Except.ok JSValue.undef)) vfp0 = Except.error "boom" from rfl] at h
  exact Except.noConfusion h

/-- C2 amended: a runtime evaluation error in any formatter expression is
NOT caught inside the hydrated formatter; the first error thrown aborts
the evaluation loop and propagates to the caller, and the raw cell value
is not substituted. -/
theorem c2_error_propagates (compile : String → Exec) (action : Option JSValue)
    (c : SCol) (pre : List String) (e : String) (post : List String) (p : VFParams)
    (msg : String)
    (hvf : c.valueFormatter = some (pre ++ e :: post))
    (hok : ∀ x ∈ pre, ∃ v, compile x (buildScope p) = Except.ok v)
    (herr : compile e (buildScope p) = Except.error msg) :
    ∃ f, (hydrateColumn compile action c).valueFormatter = some f ∧
      f p = Except.error msg := by
  have hvf' : (injectAction action c).valueFormatter = some (pre ++ e :: post) := by
    rw [injectAction_valueFormatter, hvf]
  obtain ⟨hd, tl, hshape⟩ : ∃ hd tl, pre ++ e :: post = hd :: tl := by
    cases pre with
    | nil => exact ⟨e, post, rfl⟩
    | cons x xs => exact ⟨x, xs ++ e :: post, rfl⟩
  refine ⟨fun q => runExprs compile (buildScope q) (pre ++ e :: post), ?_, ?_⟩
  · rw [hshape] at hvf' ⊢
    simp [hydrateColumn, hvf']
  · exact runExprs_error compile (buildScope p) msg pre e post hok herr

/-- C2 amended witness: formatter `["$value", "boom"]` at the sample
scope: the first entry succeeds, the second throws, and the formatter
returns the error. -/
theorem c2_witness :
    ∃ f, (hydrateColumn compileDemo none
        { field := "x", headerName := "X", cellRenderer := none
          cellRendererParams := none
          valueFormatter := some ["$value", "boom"] }).valueFormatter = some f ∧
      f vfp0 = Except.error "boom" :=
  c2_error_propagates compileDemo none _ ["$value"] "boom" [] vfp0 "boom" rfl
    (by
      intro x hx
      simp only [List.mem_singleton] at hx
      subst hx
      exact ⟨JSValue.str "raw", rfl⟩)
    rfl

/-- C3 counterexample: hydration with an action callback does NOT leave
the input serialized column unchanged: for a column with a `cellRenderer`
and existing `cellRendererParams`, the assignment at AgTable.tsx lines
134-137 writes a new params object (with `onAction` merged) into the
input object itself. -/
theorem c3_counterexample :
    fromSerializedMutatedInput (some c3Action) [c3Col] ≠ [c3Col] ∧
    fromSerializedMutatedInput (some c3Action) [c3Col] =
      [{ c3Col with
          cellRendererParams := some [("p", JSValue.str "v"), ("onAction", c3Action)] }] := by
  constructor
  · decide
  · decide

/-- C3 amended: hydration without an action callback leaves the input
columns fully unchanged; with a callback, every input field other than
`cellRendererParams` is still unchanged for every column, and the only
mutation is that a column with a `cellRenderer` and present
`cellRendererParams` gets its params replaced in place by the spread of
the old params with `onAction` bound to the callback. -/
theorem c3_mutation_bound :
    (∀ cols : List SCol, fromSerializedMutatedInput none cols = cols) ∧
    (∀ (action : Option JSValue) (cols : List SCol),
      (fromSerializedMutatedInput action cols).map stripParams = cols.map stripParams) ∧
    (∀ (act : JSValue) (c : SCol) (r : String) (ps : List (String × JSValue)),
      c.cellRenderer = some r → c.cellRendererParams = some ps →
      injectAction (some act) c =
        { c with cellRendererParams := some (objSpread ps [("onAction", act)]) }) := by
  refine ⟨?_, ?_, ?_⟩
  · intro cols
    unfold fromSerializedMutatedInput
    induction cols with
    | nil => rfl
    | cons c cs ih => simp [injectAction_none, ih]
  · intro action cols
    unfold fromSerializedMutatedInput
    induction cols with
    | nil => rfl
    | cons c cs ih =>
      have hstrip : stripParams (injectAction action c) = stripParams c := by
        obtain ⟨h1, h2, h3, h4⟩ := injectAction_field action c
        simp [stripParams, SCol.mk.injEq, h1, h2, h3, h4]
      simp [hstrip, ih]
  · intro act c r ps h1 h2
    simp [injectAction, h1, h2]

/-- C3 amended witness: the bound applied to the sample column:
no-callback hydration is the identity on it, and callback hydration
rewrites exactly its `cellRendererParams`. -/
theorem c3_witness :
    fromSerializedMutatedInput none [c3Col] = [c3Col] ∧
    injectAction (some c3Action) c3Col =
      { c3Col with
          cellRendererParams := some (objSpread [("p", JSValue.str "v")] [("onAction", c3Action)]) } :=
  ⟨c3_mutation_bound.1 [c3Col],
   c3_mutation_bound.2.2 c3Action c3Col "StatusBadge" [("p", JSValue.str "v")] rfl rfl⟩

/-- C4 counterexample: the claim lists five scope slots including a
date/time utility namespace.  The scope object built at AgTable.tsx lines
152-157 has exactly the four keys `api`, `colDef`, `node`, `value`: there
is no fifth slot and no date/time utility (no `moment` key), so the claim
as stated is false. -/
theorem c4_counterexample :
    (buildScope vfp0).map Prod.fst = ["api", "colDef", "node", "value"] ∧
    (buildScope vfp0).length = 4 ∧
    olookup "moment" (buildScope vfp0) = none := by
  decide

/-- C4 amended: for every evaluation, the scope record passed to the
compiled expressions contains exactly the four slots `api` (grid API),
`colDef` (originating column spec), `node` (row/node reference) and
`value` (raw cell value), each bound to the corresponding
`ValueFormatterParams` slot; no date/time utility namespace and no other
host state is reachable. -/
theorem c4_scope_exact (p : VFParams) :
    (buildScope p).map Prod.fst = ["api", "colDef", "node", "value"] ∧
    olookup "api" (buildScope p) = some p.api ∧
    olookup "colDef" (buildScope p) = some p.colDef ∧
    olookup "node" (buildScope p) = some p.node ∧
    olookup "value" (buildScope p) = some p.value ∧
    olookup "moment" (buildScope p) = none := by
  refine ⟨rfl, ?_, ?_, ?_, ?_, ?_⟩ <;> simp [buildScope, olookup]

/-- C5: the translator maps each native filter entry by type — `contains`
to the case-insensitive substring operator `$iLike` with the value wrapped
in `%` wildcards, `notContains` to the negated `$notILike` likewise
wrapped, anything else to an exact-equality entry with the literal value —
except that the field key `id` always gets the exact-equality literal
entry regardless of type; and `parseSort` applies exactly this mapping to
every entry of the filter model. -/
theorem c5_filter_mapping :
    (∀ (key t v : String),
      mapFilterEntry key ⟨t, v⟩ =
        (key,
          if key = "id" then FilterOut.lit v
          else if t = "contains" then FilterOut.op "$iLike" ("%" ++ v ++ "%")
          else if t = "notContains" then FilterOut.op "$notILike" ("%" ++ v ++ "%")
          else FilterOut.lit v)) ∧
    (∀ req : NativeRequest,
      (parseSort req).filter = (req.filterModel.getD []).map fun kv => mapFilterEntry kv.1 kv.2) := by
  constructor
  · intro key t v
    by_cases hk : key = "id" <;>
      by_cases h1 : t = "contains" <;>
      by_cases h2 : t = "notContains" <;>
      simp_all [mapFilterEntry]
  · intro req
    rfl

/-- C6 counterexample: for a column id with two dots the code does not
split on the FIRST dot into (relation, remainder): `"one.two.three"`
yields field name `"two"` (the second split segment), not `"two.three"`
(everything after the first dot) as the claim requires. -/
theorem c6_counterexample :
    parseSortOrderBy ⟨"one.two.three", "asc"⟩ =
      [OrderByEntry.nested "One" "one" "two" "asc"] ∧
    parseSortOrderBy ⟨"one.two.three", "asc"⟩ ≠
      [OrderByEntry.nested "One" "one" "two.three" "asc"] := by
  constructor
  · decide
  · decide

/-- C6 amended: for a dotted column id the translator splits on dots and
keeps the first two segments: the relation name is the text before the
first dot, the field name is the segment between the first and the second
dot (text after a second dot is discarded); the relation name's first
character is capitalized to form the model reference and a single nested
order-by entry (model, alias, field, direction) is emitted.  A dot-free
column id yields a single flat entry. -/
theorem c6_dotted_sort :
    (∀ (pre post : List Char) (dir : String), '.' ∉ pre → '.' ∉ post →
      parseSortOrderBy ⟨⟨pre ++ '.' :: post⟩, dir⟩ =
        [OrderByEntry.nested ⟨capitalizeFirstList pre⟩ ⟨pre⟩ ⟨post⟩ dir]) ∧
    (∀ (pre mid rest : List Char) (dir : String), '.' ∉ pre → '.' ∉ mid →
      parseSortOrderBy ⟨⟨pre ++ '.' :: (mid ++ '.' :: rest)⟩, dir⟩ =
        [OrderByEntry.nested ⟨capitalizeFirstList pre⟩ ⟨pre⟩ ⟨mid⟩ dir]) ∧
    (∀ (s : List Char) (dir : String), '.' ∉ s →
      parseSortOrderBy ⟨⟨s⟩, dir⟩ = [OrderByEntry.flat ⟨s⟩ dir]) := by
  refine ⟨?_, ?_, ?_⟩
  · intro pre post dir hpre hpost
    have hmem : '.' ∈ pre ++ '.' :: post := List.mem_append_right pre (List.mem_cons_self _ _)
    have hcontains : (pre ++ '.' :: post).contains '.' = true := by
      simp [List.contains, List.elem_iff, hmem]
    have hsplit : jsSplitChar '.' (pre ++ '.' :: post) = pre :: [post] := by
      rw [jsSplitChar_boundary '.' pre post hpre, jsSplitChar_not_mem '.' post hpost]
    simp [parseSortOrderBy, hcontains, hsplit]
  · intro pre mid rest dir hpre hmid
    have hmem : '.' ∈ pre ++ '.' :: (mid ++ '.' :: rest) :=
      List.mem_append_right pre (List.mem_cons_self _ _)
    have hcontains : (pre ++ '.' :: (mid ++ '.' :: rest)).contains '.' = true := by
      simp [List.contains, List.elem_iff, hmem]
    have hsplit : jsSplitChar '.' (pre ++ '.' :: (mid ++ '.' :: rest)) =
        pre :: mid :: jsSplitChar '.' rest := by
      rw [jsSplitChar_boundary '.' pre (mid ++ '.' :: rest) hpre,
        jsSplitChar_boundary '.' mid rest hmid]
    simp [parseSortOrderBy, hcontains, hsplit]
  · intro s dir hs
    have hcontains : s.contains '.' = false := by
      simp [List.contains, List.elem_iff, hs]
    simp [parseSortOrderBy, hcontains, hs]

/-- C6 amended witness: the single-dot case at `"account.name"` and the
double-dot case at `"one.two.three"`. -/
theorem c6_witness :
    parseSortOrderBy ⟨⟨"account".data ++ '.' :: "name".data⟩, "asc"⟩ =
      [OrderByEntry.nested ⟨capitalizeFirstList "account".data⟩ ⟨"account".data⟩
        ⟨"name".data⟩ "asc"] ∧
    parseSortOrderBy ⟨⟨"one".data ++ '.' :: ("two".data ++ '.' :: "three".data)⟩, "desc"⟩ =
      [OrderByEntry.nested ⟨capitalizeFirstList "one".data⟩ ⟨"one".data⟩
        ⟨"two".data⟩ "desc"] :=
  ⟨c6_dotted_sort.1 "account".data "name".data "asc" (by decide) (by decide),
   c6_dotted_sort.2.1 "one".data "two".data "three".data "desc" (by decide) (by decide)⟩

/-- C7: the translator returns `offset = startRow` and
`limit = endRow - startRow` with both rows defaulting to `0` when absent;
an empty (or absent) sort model yields the fixed default order-by
`[["createdAt", "desc"]]`; and the documented concrete example holds. -/
theorem c7_pagination_defaults :
    (∀ req : NativeRequest,
      (parseSort req).offset = req.startRow.getD 0 ∧
      (parseSort req).limit = req.endRow.getD 0 - req.startRow.getD 0) ∧
    (∀ req : NativeRequest, req.sortModel.getD [] = [] →
      (parseSort req).orderBy = [OrderByEntry.flat "createdAt" "desc"]) ∧
    parseSort ⟨some 10, some 30, some [], some []⟩ =
      { filter := [], limit := 20, offset := 10
        orderBy := [OrderByEntry.flat "createdAt" "desc"] } := by
  refine ⟨fun req => ⟨rfl, rfl⟩, ?_, by decide⟩
  intro req h
  simp [parseSort, h]
  decide

/-- C7 witness: the theorem applied at the documented concrete request. -/
theorem c7_witness :
    (parseSort ⟨some 10, some 30, some [], some []⟩).orderBy =
      [OrderByEntry.flat "createdAt" "desc"] ∧
    parseSort ⟨some 10, some 30, some [], some []⟩ =
      { filter := [], limit := 20, offset := 10
        orderBy := [OrderByEntry.flat "createdAt" "desc"] } :=
  ⟨c7_pagination_defaults.2.1 ⟨some 10, some 30, some [], some []⟩ rfl,
   c7_pagination_defaults.2.2⟩

/-- C9: in the `filter` object emitted by `getRows`, a key present both
in the translated grid filter map and in the definition's static
`http.params` carries the static parameter's value — the params are
spread last and override the translated filter entry. -/
theorem c9_params_override (translated : List (String × FilterOut))
    (ps : List (String × JSValue)) (k : String)
    (_hf : (olookup k translated).isSome = true)
    (hp : (olookup k ps).isSome = true) :
    olookup k (getRowsFilter translated (some ps)) =
      (olookup k ps).map MergedVal.fromParam := by
  unfold getRowsFilter
  have hmap : olookup k (ps.map fun kv => (kv.1, MergedVal.fromParam kv.2)) =
      (olookup k ps).map MergedVal.fromParam :=
    olookup_map_keyed (fun _ v => MergedVal.fromParam v) k ps
  rw [objSpread_lookup_right _ _ k (by simp [hmap, Option.isSome_map, hp])]
  exact hmap

/-- C9 witness: a key `"status"` in both maps resolves to the static
parameter's value. -/
theorem c9_witness :
    olookup "status" (getRowsFilter [("status", FilterOut.lit "fromGrid")]
      (some [("status", JSValue.str "fromParams")])) =
      some (MergedVal.fromParam (JSValue.str "fromParams")) := by
  have h := c9_params_override [("status", FilterOut.lit "fromGrid")]
    [("status", JSValue.str "fromParams")] "status" (by decide) (by decide)
  rw [h]
  decide

/-- C10: only the first entry of the sort model is consulted: a request
whose sort model is `e :: rest` translates identically to one whose sort
model is just `[e]` — later entries never reach the normalized query. -/
theorem c10_first_sort_only (sr er : Option Int)
    (fm : Option (List (String × FilterEntry))) (e : SortEntry) (rest : List SortEntry) :
    parseSort ⟨sr, er, some (e :: rest), fm⟩ = parseSort ⟨sr, er, some [e], fm⟩ := rfl

/-- C8: the `date` filter with no explicit pattern renders a parseable
string through the default token pattern `MM/DD/YYYY hh:mm:ss A`
(two-digit month, day, 12-hour hour, minutes, seconds, AM/PM marker);
an unparseable string is returned unchanged; the empty string is returned
as the empty string. -/
theorem c8_date_filter (parse : String → Option JSDate) (s : String) (d : JSDate) :
    (parse s = some d → s ≠ "" →
      dateFilter parse (JSValue.str s) none =
        JSValue.str (pad (d.month0 + 1) ++ "/" ++ pad d.day ++ "/" ++
          jsNatToString d.year ++ " " ++
          pad (if d.hours % 12 = 0 then 12 else d.hours % 12) ++ ":" ++ pad d.minutes ++
          ":" ++ pad d.seconds ++ " " ++ (if d.hours ≥ 12 then "PM" else "AM"))) ∧
    (parse s = none → dateFilter parse (JSValue.str s) none = JSValue.str s) ∧
    dateFilter parse (JSValue.str "") none = JSValue.str "" := by
  refine ⟨?_, ?_, ?_⟩
  · intro hparse hs
    simp [dateFilter, hs, hparse, formatDate_default]
  · intro hparse
    by_cases hs : s = ""
    · subst hs; simp [dateFilter]
    · simp [dateFilter, hs, hparse]
  · simp [dateFilter]

/-- C8 witness: the sample parser at the fixed timestamp renders
`03/15/2024 07:30:45 PM`; an unrecognized string and the empty string
pass through. -/
theorem c8_witness :
    dateFilter parseDemo (JSValue.str "2024-03-15T19:30:45") none =
      JSValue.str "03/15/2024 07:30:45 PM" ∧
    dateFilter parseDemo (JSValue.str "nope") none = JSValue.str "nope" ∧
    dateFilter parseDemo (JSValue.str "") none = JSValue.str "" := by
  have h := c8_date_filter parseDemo "2024-03-15T19:30:45"
    { year := 2024, month0 := 2, day := 15, hours := 19, minutes := 30, seconds := 45 }
  refine ⟨?_, (c8_date_filter parseDemo "nope"
    { year := 0, month0 := 0, day := 0, hours := 0, minutes := 0, seconds := 0 }).2.1 rfl,
    h.2.2⟩
  rw [h.1 rfl (by decide)]
  decide

end GridWeaver
